import Mathlib

/-!
Verification of the book-ai-backend retrieval core (src/main.py).

Strings are modelled as lists of characters (`Str`), matching Python's view of
a string as a sequence of code points.  Python's `str.split()` (split on runs
of whitespace, dropping empty pieces), `str.strip()`, slicing `s[:n]`, and
`' '.join` are modelled by `pyWords`, `pyStrip`, `List.take`, `joinSpace`.
The Flask handlers `upload_book`, `ask_question`, `which_book`, `clear_books`
are modelled as pure functions over an explicit `IndexState`; the external
collaborators (PDF extraction, the sentence-transformer embedding plus the
FAISS index) enter as parameters: extraction as an `Option Str` (with `none`
for an extraction exception), the encoder/FAISS rebuild as a success flag, and
a FAISS query as an abstract function from a neighbour count to the list of
returned chunk positions.
-/

/-- Python strings viewed as lists of characters. -/
abbrev Str := List Char

/-- Model of Python `str.split()` (no separator): the maximal runs of
non-whitespace characters, in order. -/
def pyWords (s : Str) : List Str :=
  (s.splitOnP Char.isWhitespace).filter (· ≠ [])

/-- Model of Python `str.strip()`: drop whitespace from both ends. -/
def pyStrip (s : Str) : Str :=
  ((s.dropWhile Char.isWhitespace).reverse.dropWhile Char.isWhitespace).reverse

/-- Model of Python `' '.join(pieces)`. -/
def joinSpace (pieces : List Str) : Str :=
  List.intercalate [' '] pieces

/-- Loop body of `split_text_into_chunks` (src/main.py lines 34-37): take the
words `words[i:i+chunk_size]`, join them with single spaces, and keep the
joined chunk when it is non-blank (`if chunk.strip()`).  The Python loop
steps `i` by `chunk_size`; for `chunk_size = 0` Python's `range` would raise,
so only `chunk_size > 0` is meaningful (all theorems assume it). -/
def chunkLoop (chunk_size : Nat) : List Str → List Str
  | [] => []
  | w :: ws =>
    let chunk := joinSpace (w :: ws.take (chunk_size - 1))
    if pyStrip chunk = [] then chunkLoop chunk_size (ws.drop (chunk_size - 1))
    else chunk :: chunkLoop chunk_size (ws.drop (chunk_size - 1))
termination_by l => l.length
decreasing_by simp only [List.length_cons, List.length_drop]; omega

/-- Model of `split_text_into_chunks` (src/main.py lines 30-38). -/
def split_text_into_chunks (text : Str) (chunk_size : Nat := 500) : List Str :=
  chunkLoop chunk_size (pyWords text)

/-- One entry of `books_db` (src/main.py lines 96-102). -/
structure BookEntry where
  id : Nat
  name : Str
  chunks : List Str
  chunk_count : Nat
  size : Nat
deriving DecidableEq, Repr

/-- The module-level mutable state of src/main.py (lines 24-27): the book
table `books_db` (a Python dict, modelled as an insertion-ordered association
list), the flat chunk list `all_chunks`, the parallel owner list
`chunk_to_book`, and the FAISS structure `search_index`, modelled abstractly
as the snapshot of `all_chunks` it was built from (`none` when absent). -/
structure IndexState where
  books_db : List (Str × BookEntry)
  all_chunks : List Str
  chunk_to_book : List Str
  search_index : Option (List Str)
deriving DecidableEq, Repr

/-- The state at process start: everything empty (src/main.py lines 24-27). -/
def emptyState : IndexState :=
  { books_db := [], all_chunks := [], chunk_to_book := [], search_index := none }

/-- Python dict assignment `d[k] = v`: overwrite in place when the key exists,
append otherwise (dicts preserve insertion order, and overwriting keeps the
key at its original position). -/
def dictSet (k : Str) (v : BookEntry) : List (Str × BookEntry) → List (Str × BookEntry)
  | [] => [(k, v)]
  | (k2, v2) :: rest => if k2 = k then (k, v) :: rest else (k2, v2) :: dictSet k v rest

/-- Model of `create_search_index` (src/main.py lines 41-54).  With no chunks
it returns early and leaves the index untouched; otherwise it re-encodes the
whole of `all_chunks` and replaces the FAISS structure.  `embedOk = false`
models the encoder or FAISS raising, in which case the exception propagates
(`none`) and the state is left as it was. -/
def create_search_index (embedOk : Bool) (s : IndexState) : Option IndexState :=
  if s.all_chunks = [] then some s
  else if embedOk then some { s with search_index := some s.all_chunks }
  else none

/-- Responses of the `/upload` handler. -/
inductive UploadResult where
  /-- 400 `No file provided`. -/
  | noFile
  /-- 400 `No file selected`. -/
  | noFileSelected
  /-- 500, a `PyPDF2` exception while reading the file. -/
  | extractError
  /-- 400 `No text found in PDF`. -/
  | noText
  /-- 500, an exception while rebuilding the search index. -/
  | embedError
  /-- 200 with book name, chunk count and total book count. -/
  | ok (book_name : Str) (chunks : Nat) (total_books : Nat)
deriving DecidableEq, Repr

/-- Model of the `/upload` handler `upload_book` (src/main.py lines 68-123).
`hasFile` models `'file' in request.files`; `extracted` is the text PyPDF2
produced (`none` when extraction raised); `embedOk` tells whether the
encoder/FAISS rebuild succeeds.  Mutations happen in source order: the book
entry is stored, the chunks and owners are appended, and only then is the
search index rebuilt; an exception in the rebuild is caught by the handler's
`except` clause after those mutations. -/
def upload_book (hasFile : Bool) (filename : Str) (extracted : Option Str)
    (embedOk : Bool) (s : IndexState) : UploadResult × IndexState :=
  if ¬hasFile then (.noFile, s)
  else if filename = [] then (.noFileSelected, s)
  else
    match extracted with
    | none => (.extractError, s)
    | some text =>
      if pyStrip text = [] then (.noText, s)
      else
        let chunks := split_text_into_chunks text
        let book_id := s.books_db.length
        let entry : BookEntry :=
          { id := book_id, name := filename, chunks := chunks,
            chunk_count := chunks.length, size := text.length }
        let s1 : IndexState :=
          { s with books_db := dictSet filename entry s.books_db,
                   all_chunks := s.all_chunks ++ chunks,
                   chunk_to_book := s.chunk_to_book ++ List.replicate chunks.length filename }
        match create_search_index embedOk s1 with
        | some s2 => (.ok filename chunks.length s2.books_db.length, s2)
        | none => (.embedError, s1)

/-- A sequence of uploads (filename, extracted text), each run with a present
file and a successful index rebuild, starting from a given state. -/
def runUploadsFrom (reqs : List (Str × Str)) (s : IndexState) : IndexState :=
  reqs.foldl (fun st p => (upload_book true p.1 (some p.2) true st).2) s

/-- A sequence of uploads starting from the empty state. -/
def runUploads (reqs : List (Str × Str)) : IndexState :=
  runUploadsFrom reqs emptyState

/-- Keep the first occurrence of every element, in encounter order. -/
def dedupFirst [DecidableEq α] : List α → List α
  | [] => []
  | b :: l => b :: dedupFirst (l.filter (· ≠ b))
termination_by l => l.length
decreasing_by simp only [List.length_cons]; exact Nat.lt_succ_of_le (List.length_filter_le _ _)

/-- One step of the counting loop `book_counts[book] = book_counts.get(book, 0) + 1`
(src/main.py lines 230-232) on a Python dict modelled as an association list. -/
def bump [DecidableEq α] (b : α) : List (α × Nat) → List (α × Nat)
  | [] => [(b, 1)]
  | (a, c) :: rest => if a = b then (a, c + 1) :: rest else (a, c) :: bump b rest

/-- The whole counting loop of `which_book`: occurrence counts keyed in
first-encounter order. -/
def tally [DecidableEq α] (l : List α) : List (α × Nat) :=
  l.foldl (fun acc b => bump b acc) []

/-- Insert into a list already sorted by count descending, after every entry
with a strictly greater count and before every entry with an equal or smaller
one. -/
def insertDesc (x : α × Nat) : List (α × Nat) → List (α × Nat)
  | [] => [x]
  | y :: ys => if y.2 > x.2 then y :: insertDesc x ys else x :: y :: ys

/-- Stable sort by count descending.  Python's
`sorted(items, key=lambda x: x[1], reverse=True)` (src/main.py lines 235-239)
is a stable sort by the count with reversed comparisons; a stable insertion
sort computes the same list. -/
def stableSortDesc : List (α × Nat) → List (α × Nat)
  | [] => []
  | x :: xs => insertDesc x (stableSortDesc xs)

/-- Responses of the `/which-book` handler. -/
inductive WhichBookResult where
  /-- 400 `No topic provided`. -/
  | noTopic
  /-- 400 `No books loaded`. -/
  | noBooks
  /-- 200 with the topic and the `(book, mentions)` result list. -/
  | ok (topic : Str) (results : List (Str × Nat))
deriving DecidableEq, Repr

/-- Model of the `/which-book` handler `which_book` (src/main.py lines
207-254).  `body` is the `topic` field of the JSON body when present
(`data.get('topic', '')`); `search` is the FAISS query, giving for a
neighbour count the list of returned chunk positions (`indices[0]`). -/
def which_book (body : Option Str) (search : Nat → List Nat) (s : IndexState) :
    WhichBookResult :=
  let topic := pyStrip (body.getD [])
  if topic = [] then .noTopic
  else if s.all_chunks = [] ∨ s.search_index = none then .noBooks
  else
    let num_results := min 10 s.all_chunks.length
    let indices := search num_results
    let book_counts := tally (indices.map fun idx => s.chunk_to_book.getD idx [])
    .ok topic (stableSortDesc book_counts)

/-- Responses of the `/ask` handler. -/
inductive AskResult where
  /-- 400 `No question provided`. -/
  | noQuestion
  /-- 400 `No books loaded yet`. -/
  | noBooks
  /-- 200 with the assembled answer, the `(text, book)` passages, and the
  list of book names used.  The Python handler returns `books_used` as
  `list(set)`, whose order is unspecified; it is modelled in encounter
  order, and no claim constrains that order (only the cardinality is used
  in the answer text). -/
  | ok (answer : Str) (passages : List (Str × Str)) (books_used : List Str)
deriving DecidableEq, Repr

/-- The ellipsis marker `'...'` appended by the `/ask` handler. -/
def ellipsis : Str := "...".data

/-- The lead-in `f"Based on {n} book(s), here's what I found:\n\n"` of the
assembled answer (src/main.py line 170). -/
def leadIn (n : Nat) : Str :=
  "Based on ".data ++ (toString n).data ++ " book(s), here's what I found:\n\n".data

/-- The fixed fragment `"The relevant information suggests: "` of the
assembled answer (src/main.py line 171). -/
def suggestsTxt : Str := "The relevant information suggests: ".data

/-- Model of the `/ask` handler `ask_question` (src/main.py lines 126-184).
`body` is the `question` field of the JSON body when present; `search` is the
FAISS query as in `which_book`.  Passages are truncated to 300 characters
with an ellipsis when longer; the combined context is capped at 1000 words;
the answer is the lead-in plus the first 500 characters of the context plus
the ellipsis marker. -/
def ask_question (body : Option Str) (search : Nat → List Nat) (s : IndexState) :
    AskResult :=
  let question := pyStrip (body.getD [])
  if question = [] then .noQuestion
  else if s.all_chunks = [] ∨ s.search_index = none then .noBooks
  else
    let num_results := min 5 s.all_chunks.length
    let indices := search num_results
    let relevant_passages := indices.map fun idx =>
      let passage := s.all_chunks.getD idx []
      ((if passage.length > 300 then passage.take 300 ++ ellipsis else passage),
        s.chunk_to_book.getD idx [])
    let books_used := dedupFirst (indices.map fun idx => s.chunk_to_book.getD idx [])
    let combined0 := joinSpace (indices.map fun idx => s.all_chunks.getD idx [])
    let combined_text :=
      if (pyWords combined0).length > 1000 then joinSpace ((pyWords combined0).take 1000)
      else combined0
    let answer := leadIn books_used.length ++ suggestsTxt ++ combined_text.take 500 ++ ellipsis
    .ok answer relevant_passages books_used

/-- Model of the `/clear` handler `clear_books` (src/main.py lines 257-272):
every piece of state is reset to empty. -/
def clear_books (_s : IndexState) : IndexState :=
  { books_db := [], all_chunks := [], chunk_to_book := [], search_index := none }

/-- Modelled from the spec: the lexical tokenizer of the lexical-overlap
scoring variant, which is described in the spec (sections 4.2 and 8) but has
no implementation under src/ (src/main.py only implements the dense FAISS
variant).  Tokens are the contiguous alphanumeric runs of the lowercased
text, taken as a set (duplicates collapse, modelled by `dedupFirst`). -/
def lexTokens (s : Str) : List Str :=
  dedupFirst (((s.map Char.toLower).splitOnP (fun c => !c.isAlphanum)).filter (· ≠ []))

/-- Modelled from the spec: the lexical-overlap score
`|tokens(query) ∩ tokens(candidate)| / |tokens(query)|`, with score 0 when
either token set is empty (spec section 4.2).  The missing implementation is
the whole lexical scoring variant. -/
def lexScore (query candidate : Str) : ℚ :=
  let qT := lexTokens query
  let cT := lexTokens candidate
  if qT = [] ∨ cT = [] then 0
  else ((qT.filter (· ∈ cT)).length : ℚ) / (qT.length : ℚ)

/-! Basic facts about the Python string primitives. -/

/-- A word as produced by `str.split()`: nonempty and free of whitespace. -/
def goodWord (w : Str) : Prop := w ≠ [] ∧ ∀ c ∈ w, ¬c.isWhitespace

instance : DecidablePred goodWord := fun w => by unfold goodWord; infer_instance

theorem splitOnP_pieces_not {p : Char → Bool} :
    ∀ s : Str, ∀ w ∈ s.splitOnP p, ∀ c ∈ w, ¬p c := by
  intro s
  induction s with
  | nil =>
    intro w hw
    simp only [List.splitOnP_nil, List.mem_singleton] at hw
    subst hw; intro c hc; cases hc
  | cons a s ih =>
    intro w hw c hc
    rw [List.splitOnP_cons] at hw
    by_cases hpa : p a
    · rw [if_pos hpa] at hw
      rcases List.mem_cons.mp hw with h | h
      · subst h; cases hc
      · exact ih w h c hc
    · rw [if_neg hpa] at hw
      rcases h' : s.splitOnP p with _ | ⟨hd, tl⟩
      · exact absurd h' (List.splitOnP_ne_nil p s)
      · rw [h'] at hw
        simp only [List.modifyHead, List.mem_cons] at hw
        rcases hw with h | h
        · subst h
          rcases List.mem_cons.mp hc with h | h
          · subst h; exact hpa
          · exact ih hd (h' ▸ List.mem_cons_self hd tl) c h
        · exact ih w (h' ▸ List.mem_cons_of_mem hd h) c hc

theorem mem_pyWords_goodWord {s w : Str} (hw : w ∈ pyWords s) : goodWord w := by
  unfold pyWords at hw
  rcases List.mem_filter.mp hw with ⟨hmem, hne⟩
  exact ⟨by simpa using hne, fun c hc => by
    simpa using splitOnP_pieces_not s w hmem c hc⟩

theorem pyWords_eq_nil_iff {s : Str} :
    pyWords s = [] ↔ ∀ c ∈ s, c.isWhitespace := by
  induction s with
  | nil => simp [pyWords]
  | cons a s ih =>
    unfold pyWords at *
    rw [List.splitOnP_cons]
    by_cases hpa : a.isWhitespace
    · rw [if_pos hpa]
      rw [List.filter_cons_of_neg (by decide)]
      rw [ih]
      constructor
      · intro h c hc
        rcases List.mem_cons.mp hc with h' | h'
        · subst h'; exact hpa
        · exact h c h'
      · intro h c hc
        exact h c (List.mem_cons_of_mem a hc)
    · rw [if_neg hpa]
      rcases h' : s.splitOnP Char.isWhitespace with _ | ⟨hd, tl⟩
      · exact absurd h' (List.splitOnP_ne_nil _ s)
      · simp only [List.modifyHead, List.filter_cons]
        constructor
        · intro h
          simp at h
        · intro h
          exact absurd (h a (List.mem_cons_self a s)) hpa

theorem pyStrip_eq_nil_iff {s : Str} :
    pyStrip s = [] ↔ ∀ c ∈ s, c.isWhitespace := by
  unfold pyStrip
  rw [List.reverse_eq_nil_iff, List.dropWhile_eq_nil_iff]
  constructor
  · intro h c hc
    by_cases hdrop : c ∈ s.dropWhile Char.isWhitespace
    · exact h c (List.mem_reverse.mpr hdrop)
    · have hsplit := List.takeWhile_append_dropWhile (p := Char.isWhitespace) (l := s)
      have : c ∈ s.takeWhile Char.isWhitespace ++ s.dropWhile Char.isWhitespace := by
        rw [hsplit]; exact hc
      rcases List.mem_append.mp this with h' | h'
      · exact List.mem_takeWhile_imp h'
      · exact absurd h' hdrop
  · intro h c hc
    exact h c (List.dropWhile_subset _ (List.mem_reverse.mp hc))

theorem joinSpace_nil : joinSpace [] = [] := rfl

theorem joinSpace_singleton (w : Str) : joinSpace [w] = w := by
  simp [joinSpace, List.intercalate]

theorem joinSpace_cons_cons (a b : Str) (t : List Str) :
    joinSpace (a :: b :: t) = a ++ ' ' :: joinSpace (b :: t) := by
  simp [joinSpace, List.intercalate, List.intersperse_cons_cons]

theorem pyWords_goodWord_single {w : Str} (h : goodWord w) : pyWords w = [w] := by
  unfold pyWords
  rw [List.splitOnP_eq_single]
  · simp [List.filter_cons, h.1]
  · intro c hc
    simpa using h.2 c hc

theorem pyWords_word_append {w rest : Str} (h : goodWord w) :
    pyWords (w ++ ' ' :: rest) = w :: pyWords rest := by
  unfold pyWords
  rw [List.splitOnP_first _ _ (fun c hc => by simpa using h.2 c hc) ' ' (by decide)]
  simp [List.filter_cons, h.1]

theorem pyWords_joinSpace :
    ∀ grp : List Str, (∀ w ∈ grp, goodWord w) → pyWords (joinSpace grp) = grp := by
  intro grp
  induction grp with
  | nil => intro _; simp [joinSpace_nil, pyWords]
  | cons a t ih =>
    intro hgood
    cases t with
    | nil => rw [joinSpace_singleton]; exact pyWords_goodWord_single (hgood a (by simp))
    | cons b t' =>
      rw [joinSpace_cons_cons]
      rw [pyWords_word_append (hgood a (by simp))]
      rw [ih (fun w hw => hgood w (List.mem_cons_of_mem a hw))]

theorem pyStrip_joinSpace_ne_nil {grp : List Str} (hne : grp ≠ [])
    (hgood : ∀ w ∈ grp, goodWord w) : pyStrip (joinSpace grp) ≠ [] := by
  rcases grp with _ | ⟨w, t⟩
  · exact absurd rfl hne
  · have hw := hgood w (by simp)
    rcases w with _ | ⟨c, w'⟩
    · exact absurd hw.1 (by simp)
    · intro hstrip
      have hall := pyStrip_eq_nil_iff.mp hstrip
      have hcmem : c ∈ joinSpace ((c :: w') :: t) := by
        cases t with
        | nil => rw [joinSpace_singleton]; simp
        | cons b t' =>
          rw [joinSpace_cons_cons]
          exact List.mem_append_left _ (by simp)
      exact hw.2 c (by simp) (hall c hcmem)

/-- The grouping of a word list into consecutive windows of `c` words: the
index arithmetic of the chunking loop (`words[i:i+chunk_size]` for
`i = 0, c, 2c, ...`), without the joining. -/
def wordGroups (c : Nat) : List Str → List (List Str)
  | [] => []
  | w :: ws => (w :: ws.take (c - 1)) :: wordGroups c (ws.drop (c - 1))
termination_by l => l.length
decreasing_by simp only [List.length_cons, List.length_drop]; omega

theorem wordGroups_eq_nil_iff {c : Nat} {ws : List Str} :
    wordGroups c ws = [] ↔ ws = [] := by
  cases ws <;> simp [wordGroups]

theorem wordGroups_mem_subset {c : Nat} :
    ∀ ws : List Str, ∀ g ∈ wordGroups c ws, ∀ w ∈ g, w ∈ ws := by
  intro ws
  induction ws using wordGroups.induct c with
  | case1 => simp [wordGroups]
  | case2 w0 ws ih =>
    intro g hg w hw
    rw [wordGroups] at hg
    rcases List.mem_cons.mp hg with h | h
    · subst h
      rcases List.mem_cons.mp hw with h' | h'
      · subst h'; exact List.mem_cons_self _ _
      · exact List.mem_cons_of_mem _ (List.take_subset _ _ h')
    · exact List.mem_cons_of_mem _ (List.drop_subset _ _ (ih g h w hw))

theorem chunkLoop_eq_map_joinSpace {c : Nat} :
    ∀ ws : List Str, (∀ w ∈ ws, goodWord w) →
      chunkLoop c ws = (wordGroups c ws).map joinSpace := by
  intro ws
  induction ws using wordGroups.induct c with
  | case1 => intro _; simp [chunkLoop, wordGroups]
  | case2 w ws ih =>
    intro hgood
    have hgood' : ∀ x ∈ ws.drop (c - 1), goodWord x :=
      fun x hx => hgood x (List.mem_cons_of_mem _ (List.drop_subset _ _ hx))
    have hgoodgrp : ∀ x ∈ w :: ws.take (c - 1), goodWord x := by
      intro x hx
      rcases List.mem_cons.mp hx with h | h
      · exact h ▸ hgood w (List.mem_cons_self _ _)
      · exact hgood x (List.mem_cons_of_mem _ (List.take_subset _ _ h))
    rw [chunkLoop, wordGroups, List.map_cons]
    rw [if_neg (pyStrip_joinSpace_ne_nil (List.cons_ne_nil _ _) hgoodgrp)]
    rw [ih hgood']

theorem wordGroups_length {c : Nat} (hc : 0 < c) :
    ∀ ws : List Str, (wordGroups c ws).length = (ws.length + c - 1) / c := by
  intro ws
  induction ws using wordGroups.induct c with
  | case1 =>
    rw [wordGroups]
    simp only [List.length_nil, Nat.zero_add]
    exact (Nat.div_eq_of_lt (by omega)).symm
  | case2 w ws ih =>
    rw [wordGroups, List.length_cons, ih, List.length_drop, List.length_cons]
    have hrw : ws.length + 1 + c - 1 = ws.length + c := by omega
    rw [hrw, Nat.add_div_right _ hc]
    rcases le_or_lt ws.length (c - 1) with h | h
    · rw [Nat.sub_eq_zero_of_le h]
      rw [Nat.div_eq_of_lt (show 0 + c - 1 < c by omega)]
      rw [Nat.div_eq_of_lt (show ws.length < c by omega)]
    · have h2 : ws.length - (c - 1) + c - 1 = ws.length := by omega
      rw [h2]

theorem wordGroups_init_length {c : Nat} (hc : 0 < c) :
    ∀ ws : List Str, ∀ i, i < (wordGroups c ws).length - 1 →
      ((wordGroups c ws).getD i []).length = c := by
  intro ws
  induction ws using wordGroups.induct c with
  | case1 => intro i hi; simp [wordGroups] at hi
  | case2 w ws ih =>
    intro i hi
    rw [wordGroups] at hi ⊢
    rcases i with _ | i
    · have hne : wordGroups c (ws.drop (c - 1)) ≠ [] := by
        intro hnil
        rw [hnil] at hi
        simp at hi
      have hdrop : ws.drop (c - 1) ≠ [] := fun h => hne (by rw [h, wordGroups])
      have hlen : c - 1 ≤ ws.length := by
        by_contra h
        exact hdrop (List.drop_eq_nil_of_le (by omega))
      simp only [List.getD_cons_zero, List.length_cons, List.length_take]
      have hlt : (c : Nat) - 1 < ws.length := by
        by_contra h
        exact hdrop (List.drop_eq_nil_of_le (by omega))
      rw [Nat.min_eq_left (by omega)]
      omega
    · simp only [List.getD_cons_succ]
      apply ih
      simp only [List.length_cons] at hi
      omega

theorem wordGroups_last_length {c : Nat} (hc : 0 < c) :
    ∀ ws : List Str, ∀ g, (wordGroups c ws).getLast? = some g →
      g.length = if ws.length % c = 0 then c else ws.length % c := by
  intro ws
  induction ws using wordGroups.induct c with
  | case1 => intro g hg; simp [wordGroups] at hg
  | case2 w ws ih =>
    intro g hg
    rw [wordGroups] at hg
    rcases htl : wordGroups c (ws.drop (c - 1)) with _ | ⟨g1, gs⟩
    · have hdrop : ws.drop (c - 1) = [] := wordGroups_eq_nil_iff.mp htl
      have hlen : ws.length ≤ c - 1 := by
        by_contra h
        have := List.length_drop (c - 1) ws
        rw [hdrop] at this
        simp at this
        omega
      rw [htl] at hg
      simp only [List.getLast?_singleton, Option.some.injEq] at hg
      subst hg
      simp only [List.length_cons, List.length_take]
      rw [Nat.min_eq_right hlen]
      rcases Nat.lt_or_ge (ws.length + 1) c with h | h
      · rw [if_neg (by rw [Nat.mod_eq_of_lt h]; omega), Nat.mod_eq_of_lt h]
      · have heq : ws.length + 1 = c := by omega
        rw [heq]
        simp [Nat.mod_self]
    · rw [htl] at hg
      rw [List.getLast?_cons_cons] at hg
      have := ih g (by rw [htl]; exact hg)
      have hdrop : ws.drop (c - 1) ≠ [] := by
        intro h
        rw [h, wordGroups] at htl
        cases htl
      have hlen : c - 1 < ws.length := by
        by_contra h
        exact hdrop (List.drop_eq_nil_of_le (by omega))
      rw [List.length_drop] at this
      have hmod : ws.length + 1 = (ws.length - (c - 1)) + c := by omega
      rw [List.length_cons, hmod, Nat.add_mod_right]
      exact this

theorem wordGroups_flatten {c : Nat} :
    ∀ ws : List Str, (wordGroups c ws).flatten = ws := by
  intro ws
  induction ws using wordGroups.induct c with
  | case1 => simp [wordGroups]
  | case2 w ws ih =>
    rw [wordGroups, List.flatten_cons, ih]
    simp [List.take_append_drop]

theorem getD_map_eq {α β : Type _} (f : α → β) (d : α) :
    ∀ (l : List α) (i : Nat), (l.map f).getD i (f d) = f (l.getD i d) := by
  intro l
  induction l with
  | nil => intro i; simp
  | cons a l ih =>
    intro i
    rcases i with _ | i
    · simp
    · simp only [List.map_cons, List.getD_cons_succ]
      exact ih i

theorem chunkLoop_nil (c : Nat) : chunkLoop c [] = [] := by
  rw [chunkLoop]

theorem chunkLoop_cons (c : Nat) (w : Str) (ws : List Str) :
    chunkLoop c (w :: ws) =
      if pyStrip (joinSpace (w :: ws.take (c - 1))) = [] then chunkLoop c (ws.drop (c - 1))
      else joinSpace (w :: ws.take (c - 1)) :: chunkLoop c (ws.drop (c - 1)) := by
  rw [chunkLoop]

theorem dedupFirst_nil [DecidableEq α] : dedupFirst ([] : List α) = [] := by
  rw [dedupFirst]

theorem dedupFirst_cons [DecidableEq α] (b : α) (l : List α) :
    dedupFirst (b :: l) = b :: dedupFirst (l.filter (· ≠ b)) := by
  rw [dedupFirst]


theorem pyWords_nil : pyWords [] = [] := rfl

theorem map_pyWords_split_chunks (text : Str) (C : Nat) :
    (split_text_into_chunks text C).map pyWords = wordGroups C (pyWords text) := by
  have hgood : ∀ w ∈ pyWords text, goodWord w := fun w hw => mem_pyWords_goodWord hw
  unfold split_text_into_chunks
  rw [chunkLoop_eq_map_joinSpace _ hgood, List.map_map]
  have hcongr : ∀ g ∈ wordGroups C (pyWords text), (pyWords ∘ joinSpace) g = id g := by
    intro g hg
    simp only [Function.comp_apply, id_eq]
    exact pyWords_joinSpace g fun w hw => hgood w (wordGroups_mem_subset _ g hg w hw)
  rw [List.map_congr_left hcongr, List.map_id]

/-- C1: for every input text of `W` whitespace-delimited words and every
chunk size `C > 0`, `split_text_into_chunks` returns `ceil(W/C)` chunks
(`(W + C - 1) / C` in natural division); every chunk except the last holds
exactly `C` words; the last holds `W mod C` words, or `C` when `W` is a
multiple of `C`; concatenating the words of all chunks in order reproduces
the word sequence of the input; and a whitespace-only input yields no
chunks. -/
theorem split_text_into_chunks_correct (text : Str) (C : Nat) (hC : 0 < C) :
    (split_text_into_chunks text C).length = ((pyWords text).length + C - 1) / C
    ∧ (∀ i, i < (split_text_into_chunks text C).length - 1 →
        (pyWords ((split_text_into_chunks text C).getD i [])).length = C)
    ∧ (∀ lastChunk, (split_text_into_chunks text C).getLast? = some lastChunk →
        (pyWords lastChunk).length =
          if (pyWords text).length % C = 0 then C else (pyWords text).length % C)
    ∧ ((split_text_into_chunks text C).map pyWords).flatten = pyWords text
    ∧ ((∀ ch ∈ text, ch.isWhitespace) → split_text_into_chunks text C = []) := by
  have hmap := map_pyWords_split_chunks text C
  have hlen : (split_text_into_chunks text C).length =
      (wordGroups C (pyWords text)).length := by
    rw [← hmap, List.length_map]
  refine ⟨?_, ?_, ?_, ?_, ?_⟩
  · rw [hlen, wordGroups_length hC]
  · intro i hi
    have h1 : pyWords ((split_text_into_chunks text C).getD i []) =
        (wordGroups C (pyWords text)).getD i [] := by
      rw [← hmap]
      exact (getD_map_eq pyWords [] (split_text_into_chunks text C) i).symm
    rw [h1]
    exact wordGroups_init_length hC _ i (by rw [← hlen]; exact hi)
  · intro lastChunk hlast
    have h2 : (wordGroups C (pyWords text)).getLast? = some (pyWords lastChunk) := by
      rw [← hmap, List.getLast?_map, hlast, Option.map_some']
    exact wordGroups_last_length hC _ _ h2
  · rw [hmap, wordGroups_flatten]
  · intro hws
    have h3 : pyWords text = [] := pyWords_eq_nil_iff.mpr hws
    unfold split_text_into_chunks
    rw [h3, chunkLoop]

/-- Witness for C1 at the concrete input `"a b c"` with chunk size 2. -/
theorem split_text_into_chunks_correct_witness :
    (split_text_into_chunks "a b c".data 2).length = ((pyWords "a b c".data).length + 2 - 1) / 2
    ∧ (∀ i, i < (split_text_into_chunks "a b c".data 2).length - 1 →
        (pyWords ((split_text_into_chunks "a b c".data 2).getD i [])).length = 2)
    ∧ (∀ lastChunk, (split_text_into_chunks "a b c".data 2).getLast? = some lastChunk →
        (pyWords lastChunk).length =
          if (pyWords "a b c".data).length % 2 = 0 then 2 else (pyWords "a b c".data).length % 2)
    ∧ ((split_text_into_chunks "a b c".data 2).map pyWords).flatten = pyWords "a b c".data
    ∧ ((∀ ch ∈ "a b c".data, ch.isWhitespace) → split_text_into_chunks "a b c".data 2 = []) :=
  split_text_into_chunks_correct "a b c".data 2 (by decide)

/-! Upload and state lemmas. -/

theorem pyWords_ne_nil_of_pyStrip_ne_nil {text : Str} (h : pyStrip text ≠ []) :
    pyWords text ≠ [] :=
  fun hw => h (pyStrip_eq_nil_iff.mpr (pyWords_eq_nil_iff.mp hw))

theorem split_text_into_chunks_ne_nil {text : Str} {C : Nat} (ht : pyWords text ≠ []) :
    split_text_into_chunks text C ≠ [] := by
  intro h
  have hmap := map_pyWords_split_chunks text C
  rw [h] at hmap
  exact ht (wordGroups_eq_nil_iff.mp hmap.symm)

/-- Evaluation of a fully successful upload: the stored entry, the appended
chunks and owners, and the rebuilt index. -/
theorem upload_book_ok_eq (filename text : Str) (s : IndexState)
    (hn : filename ≠ []) (ht : pyStrip text ≠ []) :
    upload_book true filename (some text) true s =
      (UploadResult.ok filename (split_text_into_chunks text).length
          (dictSet filename
            { id := s.books_db.length, name := filename,
              chunks := split_text_into_chunks text,
              chunk_count := (split_text_into_chunks text).length,
              size := text.length } s.books_db).length,
        { books_db := dictSet filename
            { id := s.books_db.length, name := filename,
              chunks := split_text_into_chunks text,
              chunk_count := (split_text_into_chunks text).length,
              size := text.length } s.books_db,
          all_chunks := s.all_chunks ++ split_text_into_chunks text,
          chunk_to_book :=
            s.chunk_to_book ++ List.replicate (split_text_into_chunks text).length filename,
          search_index := some (s.all_chunks ++ split_text_into_chunks text) }) := by
  have hchunks : split_text_into_chunks text ≠ [] :=
    split_text_into_chunks_ne_nil (pyWords_ne_nil_of_pyStrip_ne_nil ht)
  have happ : s.all_chunks ++ split_text_into_chunks text ≠ [] :=
    List.append_ne_nil_of_right_ne_nil _ hchunks
  simp only [upload_book, not_true_eq_false, if_false, if_neg hn, if_neg ht,
    create_search_index, if_neg happ, if_pos rfl]
  rfl

/-- C9: `clear_books` resets the whole state (book table, flat chunk list,
owner list, search structure) to the empty state from any state, and it is
idempotent: clearing twice gives exactly the state of clearing once. -/
theorem clear_books_correct (s : IndexState) :
    clear_books s = emptyState
    ∧ (clear_books s).books_db = []
    ∧ (clear_books s).all_chunks = []
    ∧ (clear_books s).chunk_to_book = []
    ∧ (clear_books s).search_index = none
    ∧ clear_books (clear_books s) = clear_books s :=
  ⟨rfl, rfl, rfl, rfl, rfl, rfl⟩

/-- Counterexample to C3 as stated: an upload whose index rebuild fails
returns an error response (a 500), yet the document and its chunks have
already been inserted, so the state is not what it was before the request. -/
theorem upload_failure_mutates_state_counterexample :
    (upload_book true "a".data (some "x".data) false emptyState).1 = UploadResult.embedError
    ∧ (upload_book true "a".data (some "x".data) false emptyState).2 ≠ emptyState
    ∧ ((upload_book true "a".data (some "x".data) false emptyState).2).all_chunks.length = 1 := by
  have hx : pyWords "x".data = ["x".data] := by decide
  have hcl : split_text_into_chunks "x".data = ["x".data] := by
    unfold split_text_into_chunks
    rw [hx, chunkLoop_cons]
    simp +decide [chunkLoop_nil]
  refine ⟨?_, ?_, ?_⟩ <;>
    simp +decide [upload_book, hcl, create_search_index, emptyState, dictSet]


/-- C3 (amended): every upload failure detected before the chunks are
inserted — missing file, empty filename, extraction error, empty extracted
text — leaves the index state exactly as it was; the one failure that can
occur after insertion (an exception while rebuilding the search index)
instead leaves the new document and its chunks inserted, as the
counterexample shows. -/
theorem upload_book_early_failure_preserves_state
    (hasFile : Bool) (filename : Str) (extracted : Option Str) (embedOk : Bool)
    (s : IndexState)
    (h : (upload_book hasFile filename extracted embedOk s).1 = UploadResult.noFile
       ∨ (upload_book hasFile filename extracted embedOk s).1 = UploadResult.noFileSelected
       ∨ (upload_book hasFile filename extracted embedOk s).1 = UploadResult.extractError
       ∨ (upload_book hasFile filename extracted embedOk s).1 = UploadResult.noText) :
    (upload_book hasFile filename extracted embedOk s).2 = s := by
  by_cases hf : hasFile
  case neg => simp [upload_book, hf]
  case pos =>
    by_cases hn : filename = []
    · simp [upload_book, hf, hn]
    · cases extracted with
      | none => simp [upload_book, hf, hn]
      | some text =>
        by_cases ht : pyStrip text = []
        · simp [upload_book, hf, hn, ht]
        · exfalso
          simp only [upload_book, hf, not_true_eq_false, if_false, if_neg hn, if_neg ht] at h
          rcases hcsi : create_search_index embedOk
              { s with
                books_db := dictSet filename
                  { id := s.books_db.length, name := filename,
                    chunks := split_text_into_chunks text,
                    chunk_count := (split_text_into_chunks text).length,
                    size := text.length } s.books_db,
                all_chunks := s.all_chunks ++ split_text_into_chunks text,
                chunk_to_book := s.chunk_to_book
                  ++ List.replicate (split_text_into_chunks text).length filename }
            with _ | s2
          · rw [hcsi] at h
            simp at h
          · rw [hcsi] at h
            simp at h

/-- Witness for the amended C3 at a concrete early failure (no file sent). -/
theorem upload_book_early_failure_preserves_state_witness :
    (upload_book false "a".data none true emptyState).2 = emptyState :=
  upload_book_early_failure_preserves_state false "a".data none true emptyState
    (Or.inl (by simp [upload_book]))

/-- C10: a request body without the `question` (resp. `topic`) key is read by
`data.get('question', '')` (resp. `data.get('topic', '')`) as the empty
string, so it takes exactly the same empty-input 400 path as a
whitespace-only string, for both `/ask` and `/which-book`. -/
theorem missing_field_same_as_blank (f g : Nat → List Nat) (s : IndexState)
    (w : Str) (hw : ∀ c ∈ w, c.isWhitespace) :
    ask_question none f s = AskResult.noQuestion
    ∧ ask_question (some w) f s = AskResult.noQuestion
    ∧ which_book none g s = WhichBookResult.noTopic
    ∧ which_book (some w) g s = WhichBookResult.noTopic := by
  have hww : pyStrip w = [] := pyStrip_eq_nil_iff.mpr hw
  refine ⟨?_, ?_, ?_, ?_⟩ <;>
    simp +decide [ask_question, which_book, hww]

/-- Witness for C10 at a whitespace-only body on the empty state. -/
theorem missing_field_same_as_blank_witness :
    ask_question none (fun _ => []) emptyState = AskResult.noQuestion
    ∧ ask_question (some " ".data) (fun _ => []) emptyState = AskResult.noQuestion
    ∧ which_book none (fun _ => []) emptyState = WhichBookResult.noTopic
    ∧ which_book (some " ".data) (fun _ => []) emptyState = WhichBookResult.noTopic :=
  missing_field_same_as_blank (fun _ => []) (fun _ => []) emptyState " ".data (by decide)

/-- C6 (amended): `ask_question` fails with the empty-query error exactly
when the question is blank after trimming; it fails with the no-corpus error
exactly when the question is non-blank and the index holds zero chunks or
holds no dense search structure (`not all_chunks or search_index is None`);
only when none of these holds does it produce a ranked result.  On states
whose search structure was rebuilt successfully after every insertion the
no-corpus condition coincides with having zero chunks, but a state with
chunks and no structure is reachable through a failed rebuild, as the
counterexample shows. -/
theorem ask_question_error_classification (body : Option Str) (f : Nat → List Nat)
    (s : IndexState) :
    (ask_question body f s = AskResult.noQuestion ↔ pyStrip (body.getD []) = [])
    ∧ (ask_question body f s = AskResult.noBooks ↔
        (pyStrip (body.getD []) ≠ [] ∧ (s.all_chunks = [] ∨ s.search_index = none)))
    ∧ (pyStrip (body.getD []) ≠ [] ∧ s.all_chunks ≠ [] ∧ s.search_index ≠ none →
        ∃ answer passages books, ask_question body f s = AskResult.ok answer passages books) := by
  unfold ask_question
  by_cases hq : pyStrip (body.getD []) = []
  · rw [if_pos hq]
    simp [hq]
  · rw [if_neg hq]
    by_cases hc : s.all_chunks = [] ∨ s.search_index = none
    · rw [if_pos hc]
      exact ⟨iff_of_false (by simp) hq, iff_of_true rfl ⟨hq, hc⟩,
        fun h' => absurd hc (not_or.mpr ⟨h'.2.1, h'.2.2⟩)⟩
    · rw [if_neg hc]
      exact ⟨iff_of_false (by simp) hq, iff_of_false (by simp) (fun h' => hc h'.2),
        fun _ => ⟨_, _, _, rfl⟩⟩

/-- Witness for the amended C6: on a one-chunk state with a search structure
a non-blank question produces a ranked result. -/
theorem ask_question_error_classification_witness :
    ∃ answer passages books,
      ask_question (some "q".data) (fun _ => [0])
          { books_db := [], all_chunks := ["alpha".data], chunk_to_book := ["a".data],
            search_index := some ["alpha".data] }
        = AskResult.ok answer passages books :=
  (ask_question_error_classification (some "q".data) (fun _ => [0])
      { books_db := [], all_chunks := ["alpha".data], chunk_to_book := ["a".data],
        search_index := some ["alpha".data] }).2.2
    ⟨by decide, by decide, by decide⟩

/-- Counterexample to C6 as stated: after an upload whose index rebuild
failed, the index holds one chunk yet a non-blank question still fails with
the no-corpus error, so the no-corpus failure is not exactly the zero-chunk
states. -/
theorem ask_no_corpus_error_counterexample :
    ((upload_book true "a".data (some "x".data) false emptyState).2).all_chunks.length = 1
    ∧ ask_question (some "q".data) (fun _ => [])
        ((upload_book true "a".data (some "x".data) false emptyState).2)
      = AskResult.noBooks := by
  have hx : pyWords "x".data = ["x".data] := by decide
  have hcl : split_text_into_chunks "x".data = ["x".data] := by
    unfold split_text_into_chunks
    rw [hx, chunkLoop_cons]
    simp +decide [chunkLoop_nil]
  constructor
  · simp +decide [upload_book, hcl, create_search_index, emptyState, dictSet]
  · simp +decide [upload_book, hcl, create_search_index, emptyState, dictSet, ask_question]

/-- C8: uploading a document under a name that is already present is not
rejected: the `books_db` entry for that name is overwritten with the new
summary (new chunks, chunk count, size, and a fresh id), while the earlier
upload's chunks stay in the flat chunk list and in the owner list attributed
to that same name; the total book count does not increase while the total
chunk count strictly increases. -/
theorem upload_duplicate_name_overwrites (filename t1 t2 : Str)
    (hn : filename ≠ []) (h1 : pyStrip t1 ≠ []) (h2 : pyStrip t2 ≠ []) :
    (upload_book true filename (some t2) true
        (upload_book true filename (some t1) true emptyState).2).1
      = UploadResult.ok filename (split_text_into_chunks t2).length 1
    ∧ (upload_book true filename (some t2) true
        (upload_book true filename (some t1) true emptyState).2).2
      = { books_db := [(filename,
            { id := 1, name := filename, chunks := split_text_into_chunks t2,
              chunk_count := (split_text_into_chunks t2).length, size := t2.length })],
          all_chunks := split_text_into_chunks t1 ++ split_text_into_chunks t2,
          chunk_to_book :=
            List.replicate (split_text_into_chunks t1).length filename
              ++ List.replicate (split_text_into_chunks t2).length filename,
          search_index := some (split_text_into_chunks t1 ++ split_text_into_chunks t2) }
    ∧ (upload_book true filename (some t2) true
          (upload_book true filename (some t1) true emptyState).2).2.books_db.length
        = ((upload_book true filename (some t1) true emptyState).2).books_db.length
    ∧ ((upload_book true filename (some t1) true emptyState).2).all_chunks.length
        < (upload_book true filename (some t2) true
            (upload_book true filename (some t1) true emptyState).2).2.all_chunks.length := by
  have hc2 : 0 < (split_text_into_chunks t2).length :=
    List.length_pos.mpr (split_text_into_chunks_ne_nil (pyWords_ne_nil_of_pyStrip_ne_nil h2))
  rw [upload_book_ok_eq filename t1 emptyState hn h1]
  simp only [emptyState, List.nil_append, List.length_nil]
  rw [show dictSet filename
      { id := 0, name := filename, chunks := split_text_into_chunks t1,
        chunk_count := (split_text_into_chunks t1).length, size := t1.length } [] =
      [(filename,
        { id := 0, name := filename, chunks := split_text_into_chunks t1,
          chunk_count := (split_text_into_chunks t1).length, size := t1.length })] from rfl]
  rw [upload_book_ok_eq filename t2 _ hn h2]
  simp only [dictSet, if_pos rfl, List.length_cons, List.length_nil, List.length_append]
  refine ⟨rfl, rfl, rfl, by omega⟩

/-- Witness for C8 at the concrete duplicate upload of name `a` with texts
`x` then `y z`. -/
theorem upload_duplicate_name_overwrites_witness :
    (upload_book true "a".data (some "y z".data) true
        (upload_book true "a".data (some "x".data) true emptyState).2).1
      = UploadResult.ok "a".data (split_text_into_chunks "y z".data).length 1
    ∧ (upload_book true "a".data (some "y z".data) true
        (upload_book true "a".data (some "x".data) true emptyState).2).2
      = { books_db := [("a".data,
            { id := 1, name := "a".data, chunks := split_text_into_chunks "y z".data,
              chunk_count := (split_text_into_chunks "y z".data).length,
              size := "y z".data.length })],
          all_chunks := split_text_into_chunks "x".data ++ split_text_into_chunks "y z".data,
          chunk_to_book :=
            List.replicate (split_text_into_chunks "x".data).length "a".data
              ++ List.replicate (split_text_into_chunks "y z".data).length "a".data,
          search_index :=
            some (split_text_into_chunks "x".data ++ split_text_into_chunks "y z".data) }
    ∧ (upload_book true "a".data (some "y z".data) true
          (upload_book true "a".data (some "x".data) true emptyState).2).2.books_db.length
        = ((upload_book true "a".data (some "x".data) true emptyState).2).books_db.length
    ∧ ((upload_book true "a".data (some "x".data) true emptyState).2).all_chunks.length
        < (upload_book true "a".data (some "y z".data) true
            (upload_book true "a".data (some "x".data) true emptyState).2).2.all_chunks.length :=
  upload_duplicate_name_overwrites "a".data "x".data "y z".data
    (by decide) (by decide) (by decide)

/-! Lemmas for the index invariant over upload sequences. -/

theorem runUploadsFrom_nil (s : IndexState) : runUploadsFrom [] s = s := rfl

theorem runUploadsFrom_cons (p : Str × Str) (rest : List (Str × Str)) (s : IndexState) :
    runUploadsFrom (p :: rest) s =
      runUploadsFrom rest ((upload_book true p.1 (some p.2) true s).2) := rfl

/-- The key list of the book table, in insertion order. -/
def dbKeys (db : List (Str × BookEntry)) : List Str := db.map Prod.fst

theorem dictSet_of_not_mem {k : Str} {v : BookEntry} :
    ∀ {db : List (Str × BookEntry)}, k ∉ dbKeys db → dictSet k v db = db ++ [(k, v)] := by
  intro db
  induction db with
  | nil => intro _; rfl
  | cons q rest ih =>
    intro h
    simp only [dbKeys, List.map_cons, List.mem_cons, not_or] at h
    rw [dictSet, if_neg (fun he => h.1 he.symm), List.cons_append, ih h.2]

theorem runUploadsFrom_len_eq (reqs : List (Str × Str)) :
    ∀ s : IndexState,
      (∀ p ∈ reqs, p.1 ≠ [] ∧ pyStrip p.2 ≠ []) →
      s.all_chunks.length = s.chunk_to_book.length →
      (runUploadsFrom reqs s).all_chunks.length
        = (runUploadsFrom reqs s).chunk_to_book.length := by
  induction reqs with
  | nil => intro s _ h; exact h
  | cons p rest ih =>
    intro s hok h
    rw [runUploadsFrom_cons]
    have hp := hok p (List.mem_cons_self _ _)
    apply ih _ (fun q hq => hok q (List.mem_cons_of_mem _ hq))
    rw [upload_book_ok_eq p.1 p.2 s hp.1 hp.2]
    simp [List.length_append, List.length_replicate, h]

theorem runUploadsFrom_sum (reqs : List (Str × Str)) :
    ∀ s : IndexState,
      (∀ p ∈ reqs, p.1 ≠ [] ∧ pyStrip p.2 ≠ []) →
      (reqs.map Prod.fst).Nodup →
      (∀ n ∈ reqs.map Prod.fst, n ∉ dbKeys s.books_db) →
      (s.books_db.map fun q => q.2.chunk_count).sum = s.all_chunks.length →
      ((runUploadsFrom reqs s).books_db.map fun q => q.2.chunk_count).sum
        = (runUploadsFrom reqs s).all_chunks.length := by
  induction reqs with
  | nil => intro s _ _ _ h; exact h
  | cons p rest ih =>
    intro s hok hnd hnotin h
    rw [runUploadsFrom_cons]
    have hp := hok p (List.mem_cons_self _ _)
    have hp1 : p.1 ∉ dbKeys s.books_db := hnotin p.1 (by simp)
    have hndtail : (rest.map Prod.fst).Nodup := by
      rw [List.map_cons] at hnd
      exact (List.nodup_cons.mp hnd).2
    have hheadnotin : p.1 ∉ rest.map Prod.fst := by
      rw [List.map_cons] at hnd
      exact (List.nodup_cons.mp hnd).1
    apply ih _ (fun q hq => hok q (List.mem_cons_of_mem _ hq)) hndtail
    · intro n hn
      rw [upload_book_ok_eq p.1 p.2 s hp.1 hp.2]
      simp only [dictSet_of_not_mem hp1, dbKeys, List.map_append, List.map_cons,
        List.map_nil, List.mem_append, List.mem_cons, List.not_mem_nil, or_false, not_or]
      refine ⟨fun hm => hnotin n (List.mem_cons_of_mem _ hn) hm, ?_⟩
      intro he
      exact hheadnotin (he ▸ hn)
    · rw [upload_book_ok_eq p.1 p.2 s hp.1 hp.2]
      simp only [dictSet_of_not_mem hp1, List.map_append, List.map_cons, List.map_nil,
        List.sum_append, List.sum_cons, List.sum_nil, List.length_append, h]
      omega

/-- C2 (amended): after any sequence of successful uploads from the empty
state, the flat chunk list and the owner list always have equal length; when
additionally the uploaded names are pairwise distinct, both lengths equal the
sum of the per-document chunk counts stored in the book table.  With a
repeated name the book-table entry is overwritten and the sum drops below
the two (still equal) list lengths, as the counterexample shows. -/
theorem index_length_invariant (reqs : List (Str × Str))
    (hok : ∀ p ∈ reqs, p.1 ≠ [] ∧ pyStrip p.2 ≠ []) :
    (runUploads reqs).all_chunks.length = (runUploads reqs).chunk_to_book.length
    ∧ ((reqs.map Prod.fst).Nodup →
        ((runUploads reqs).books_db.map fun q => q.2.chunk_count).sum
          = (runUploads reqs).all_chunks.length) := by
  constructor
  · exact runUploadsFrom_len_eq reqs emptyState hok rfl
  · intro hnd
    exact runUploadsFrom_sum reqs emptyState hok hnd (by simp [emptyState, dbKeys]) rfl

/-- Witness for the amended C2 at two distinct-name uploads. -/
theorem index_length_invariant_witness :
    (runUploads [("a".data, "x".data), ("b".data, "y".data)]).all_chunks.length
      = (runUploads [("a".data, "x".data), ("b".data, "y".data)]).chunk_to_book.length
    ∧ (([("a".data, "x".data), ("b".data, "y".data)].map Prod.fst).Nodup →
        ((runUploads [("a".data, "x".data), ("b".data, "y".data)]).books_db.map
            fun q => q.2.chunk_count).sum
          = (runUploads [("a".data, "x".data), ("b".data, "y".data)]).all_chunks.length) :=
  index_length_invariant [("a".data, "x".data), ("b".data, "y".data)] (by decide)

/-- Counterexample to C2 as stated: two successful uploads under the same
name leave two chunks in the flat list and owner list, while the book table
holds a single entry whose chunk count is 1, so the sum of stored chunk
counts is 1, not 2. -/
theorem index_sum_invariant_counterexample :
    ((runUploads [("a".data, "x".data), ("a".data, "y".data)]).books_db.map
        fun q => q.2.chunk_count).sum = 1
    ∧ (runUploads [("a".data, "x".data), ("a".data, "y".data)]).all_chunks.length = 2
    ∧ (runUploads [("a".data, "x".data), ("a".data, "y".data)]).chunk_to_book.length = 2 := by
  have hcx : split_text_into_chunks "x".data = ["x".data] := by
    unfold split_text_into_chunks
    rw [show pyWords "x".data = ["x".data] from by decide, chunkLoop_cons]
    simp +decide [chunkLoop_nil]
  have hcy : split_text_into_chunks "y".data = ["y".data] := by
    unfold split_text_into_chunks
    rw [show pyWords "y".data = ["y".data] from by decide, chunkLoop_cons]
    simp +decide [chunkLoop_nil]
  rw [show runUploads [("a".data, "x".data), ("a".data, "y".data)]
      = (upload_book true "a".data (some "y".data) true
          (upload_book true "a".data (some "x".data) true emptyState).2).2 from rfl]
  rw [upload_book_ok_eq "a".data "x".data emptyState (by decide) (by decide)]
  rw [upload_book_ok_eq "a".data "y".data _ (by decide) (by decide)]
  simp +decide [hcx, hcy, emptyState, dictSet]

/-! Lemmas for the spec-modelled lexical scorer. -/

theorem lexScore_empty_tokens {q c : Str}
    (h : lexTokens q = [] ∨ lexTokens c = []) : lexScore q c = 0 := by
  unfold lexScore
  rw [if_pos h]

/-- C7 (amended): the lexical-overlap score is always within `[0, 1]`; a
candidate identical to a query with at least one token scores exactly 1; a
candidate sharing no tokens with the query scores 0; and the score is 0
whenever either token set is empty — in particular a query with no
alphanumeric characters scores 0 even against an identical candidate, as the
counterexample shows. -/
theorem lexScore_properties (q c : Str) :
    (0 ≤ lexScore q c ∧ lexScore q c ≤ 1)
    ∧ (lexTokens q ≠ [] → lexScore q q = 1)
    ∧ ((∀ t ∈ lexTokens q, t ∉ lexTokens c) → lexScore q c = 0)
    ∧ (lexTokens q = [] ∨ lexTokens c = [] → lexScore q c = 0) := by
  refine ⟨?_, ?_, ?_, fun h => lexScore_empty_tokens h⟩
  · unfold lexScore
    by_cases h : lexTokens q = [] ∨ lexTokens c = []
    · rw [if_pos h]
      norm_num
    · rw [if_neg h]
      push_neg at h
      have hqpos : 0 < ((lexTokens q).length : ℚ) := by
        have := List.length_pos.mpr h.1
        exact_mod_cast this
      constructor
      · positivity
      · rw [div_le_one hqpos]
        exact_mod_cast List.length_filter_le _ _
  · intro hq
    unfold lexScore
    rw [if_neg (by simp [hq])]
    rw [List.filter_eq_self.mpr (fun t ht => by simpa using ht)]
    exact div_self (ne_of_gt (by exact_mod_cast List.length_pos.mpr hq))
  · intro hdisj
    unfold lexScore
    by_cases h : lexTokens q = [] ∨ lexTokens c = []
    · rw [if_pos h]
    · rw [if_neg h]
      rw [List.filter_eq_nil_iff.mpr (fun t ht => by simpa using hdisj t ht)]
      simp

/-- Witness for the amended C7: a two-token query against itself scores 1,
and against a disjoint candidate scores 0. -/
theorem lexScore_properties_witness :
    lexScore "hello world".data "hello world".data = 1
    ∧ lexScore "hello world".data "xyz".data = 0 := by
  have htok : lexTokens "hello world".data ≠ [] := by
    unfold lexTokens
    rw [show ((("hello world".data.map Char.toLower).splitOnP
        (fun c => !c.isAlphanum)).filter (· ≠ []))
      = ["hello".data, "world".data] from by decide]
    rw [dedupFirst_cons]
    exact List.cons_ne_nil _ _
  constructor
  · exact (lexScore_properties "hello world".data "hello world".data).2.1 htok
  · refine (lexScore_properties "hello world".data "xyz".data).2.2.1 ?_
    intro t ht
    rw [show lexTokens "hello world".data = ["hello".data, "world".data] from ?_] at ht
    · rw [show lexTokens "xyz".data = ["xyz".data] from ?_]
      · rcases List.mem_cons.mp ht with h | h
        · subst h; decide
        · rw [List.mem_singleton.mp h]; decide
      · unfold lexTokens
        rw [show ((("xyz".data.map Char.toLower).splitOnP
            (fun c => !c.isAlphanum)).filter (· ≠ [])) = ["xyz".data] from by decide]
        rw [dedupFirst_cons]
        simp +decide [dedupFirst_nil]
    · unfold lexTokens
      rw [show ((("hello world".data.map Char.toLower).splitOnP
          (fun c => !c.isAlphanum)).filter (· ≠ []))
        = ["hello".data, "world".data] from by decide]
      rw [dedupFirst_cons]
      simp +decide [dedupFirst_cons, dedupFirst_nil]

/-- Counterexample to C7 as stated: the query `!!` has an empty token set, so
a candidate identical to it scores 0, not 1. -/
theorem lexScore_identical_counterexample :
    lexScore "!!".data "!!".data = 0 ∧ lexScore "!!".data "!!".data ≠ 1 := by
  have h : lexTokens "!!".data = [] := by
    unfold lexTokens
    rw [show ((("!!".data.map Char.toLower).splitOnP
        (fun c => !c.isAlphanum)).filter (· ≠ [])) = [] from by decide]
    exact dedupFirst_nil
  have h0 : lexScore "!!".data "!!".data = 0 := lexScore_empty_tokens (Or.inl h)
  exact ⟨h0, by rw [h0]; norm_num⟩

/-! Characterisation of the dict-counting loop of `which_book` as a
first-encounter tally. -/

/-- First-encounter tally, structurally: the head key with its full count,
then the tally of the remaining list with that key removed. -/
def specTally [DecidableEq α] : List α → List (α × Nat)
  | [] => []
  | b :: l => (b, 1 + l.count b) :: specTally (l.filter (· ≠ b))
termination_by l => l.length
decreasing_by simp only [List.length_cons]; exact Nat.lt_succ_of_le (List.length_filter_le _ _)

theorem specTally_nil [DecidableEq α] : specTally ([] : List α) = [] := by
  rw [specTally]

theorem specTally_cons [DecidableEq α] (b : α) (l : List α) :
    specTally (b :: l) = (b, 1 + l.count b) :: specTally (l.filter (· ≠ b)) := by
  rw [specTally]

theorem bump_of_not_mem [DecidableEq α] {b : α} :
    ∀ {acc : List (α × Nat)}, b ∉ acc.map Prod.fst → bump b acc = acc ++ [(b, 1)] := by
  intro acc
  induction acc with
  | nil => intro _; rfl
  | cons q rest ih =>
    intro h
    simp only [List.map_cons, List.mem_cons, not_or] at h
    rcases q with ⟨a, c⟩
    rw [bump, if_neg (fun he => h.1 he.symm), List.cons_append, ih h.2]

theorem bump_of_mem [DecidableEq α] {b : α} :
    ∀ {acc : List (α × Nat)}, (acc.map Prod.fst).Nodup → b ∈ acc.map Prod.fst →
      bump b acc = acc.map fun q => if q.1 = b then (q.1, q.2 + 1) else q := by
  intro acc
  induction acc with
  | nil => intro _ h; cases h
  | cons q rest ih =>
    intro hN hmem
    rcases q with ⟨a, c⟩
    simp only [List.map_cons, List.nodup_cons] at hN
    by_cases ha : a = b
    · rw [bump, if_pos ha]
      simp only [List.map_cons, if_pos ha]
      have hrest : rest.map (fun q => if q.1 = b then (q.1, q.2 + 1) else q) = rest.map id := by
        refine List.map_congr_left fun q hq => ?_
        have hq1 : q.1 ≠ b := fun he =>
          hN.1 (by rw [ha, ← he]; exact List.mem_map_of_mem Prod.fst hq)
        simp [hq1]
      rw [hrest, List.map_id]
    · simp only [List.map_cons, List.mem_cons] at hmem
      rcases hmem with he | hmem
      · exact absurd he.symm ha
      · rw [bump, if_neg ha]
        simp only [List.map_cons, if_neg ha]
        rw [ih hN.2 hmem]

theorem bump_keys_of_mem [DecidableEq α] {b : α} {acc : List (α × Nat)}
    (hN : (acc.map Prod.fst).Nodup) (hb : b ∈ acc.map Prod.fst) :
    (bump b acc).map Prod.fst = acc.map Prod.fst := by
  rw [bump_of_mem hN hb, List.map_map]
  refine List.map_congr_left fun q _ => ?_
  by_cases hq : q.1 = b <;> simp [hq]

theorem foldl_bump_eq [DecidableEq α] :
    ∀ (l : List α) (acc : List (α × Nat)), (acc.map Prod.fst).Nodup →
      l.foldl (fun a b => bump b a) acc
        = (acc.map fun q => (q.1, q.2 + l.count q.1))
          ++ specTally (l.filter fun x => x ∉ acc.map Prod.fst) := by
  intro l
  induction l with
  | nil =>
    intro acc _
    simp [specTally_nil]
  | cons b t ih =>
    intro acc hN
    rw [List.foldl_cons]
    by_cases hb : b ∈ acc.map Prod.fst
    · have hkeys := bump_keys_of_mem hN hb
      rw [ih (bump b acc) (by rw [hkeys]; exact hN), hkeys]
      rw [List.filter_cons_of_neg (by simpa using hb)]
      rw [bump_of_mem hN hb, List.map_map]
      congr 1
      refine List.map_congr_left fun q _ => ?_
      by_cases hq : q.1 = b
      · simp [Function.comp_apply, if_pos hq, List.count_cons, hq]
        try omega
      · simp [Function.comp_apply, if_neg hq, List.count_cons, Ne.symm hq]
    · rw [bump_of_not_mem hb]
      have hN' : ((acc ++ [(b, 1)]).map Prod.fst).Nodup := by
        rw [List.map_append]
        refine List.nodup_append.mpr ⟨hN, List.nodup_singleton _, ?_⟩
        intro x hx hx'
        simp only [List.map_cons, List.map_nil, List.mem_singleton] at hx'
        exact hb (hx' ▸ hx)
      rw [ih (acc ++ [(b, 1)]) hN']
      rw [List.filter_cons_of_pos (by simpa using hb)]
      rw [specTally_cons]
      rw [List.map_append]
      have hcount : (t.filter fun x => x ∉ acc.map Prod.fst).count b = t.count b :=
        List.count_filter (by simpa using hb)
      have hfilter : (t.filter fun x => x ∉ (acc ++ [(b, 1)]).map Prod.fst)
          = ((t.filter fun x => x ∉ acc.map Prod.fst).filter (· ≠ b)) := by
        rw [List.filter_filter]
        refine List.filter_congr fun a _ => ?_
        simp only [List.map_append, List.map_cons, List.map_nil, List.mem_append,
          List.mem_singleton, not_or, decide_not]
        rcases Decidable.em (a ∈ acc.map Prod.fst) with h | h <;>
          rcases Decidable.em (a = b) with h' | h' <;> simp [h, h']
      rw [hfilter, hcount]
      have hmapcongr : (acc.map fun q => (q.1, q.2 + t.count q.1))
          = acc.map fun q => (q.1, q.2 + (b :: t).count q.1) := by
        refine List.map_congr_left fun q hq => ?_
        have hqb : q.1 ≠ b := fun he => hb (he ▸ List.mem_map_of_mem Prod.fst hq)
        simp [List.count_cons, Ne.symm hqb]
      rw [hmapcongr]
      simp

theorem tally_eq_specTally [DecidableEq α] (l : List α) : tally l = specTally l := by
  unfold tally
  rw [foldl_bump_eq l [] (by simp)]
  simp

theorem specTally_keys [DecidableEq α] :
    ∀ l : List α, (specTally l).map Prod.fst = dedupFirst l := by
  intro l
  induction l using dedupFirst.induct with
  | case1 => rw [specTally_nil, dedupFirst]; rfl
  | case2 b l ih => rw [specTally_cons, dedupFirst_cons, List.map_cons, ih]

theorem mem_dedupFirst [DecidableEq α] :
    ∀ (l : List α) (x : α), x ∈ dedupFirst l ↔ x ∈ l := by
  intro l
  induction l using dedupFirst.induct with
  | case1 => intro x; rw [dedupFirst_nil]
  | case2 b l ih =>
    intro x
    rw [dedupFirst_cons, List.mem_cons, List.mem_cons, ih, List.mem_filter]
    by_cases hx : x = b
    · simp [hx]
    · simp [hx]

theorem dedupFirst_nodup [DecidableEq α] : ∀ l : List α, (dedupFirst l).Nodup := by
  intro l
  induction l using dedupFirst.induct with
  | case1 => rw [dedupFirst_nil]; exact List.nodup_nil
  | case2 b l ih =>
    rw [dedupFirst_cons]
    refine List.nodup_cons.mpr ⟨fun hb => ?_, ih⟩
    have := (mem_dedupFirst _ b).mp hb
    simp at this

theorem specTally_mem [DecidableEq α] :
    ∀ (l : List α) (a : α) (n : Nat),
      (a, n) ∈ specTally l ↔ (a ∈ l ∧ n = l.count a) := by
  intro l
  induction l using dedupFirst.induct with
  | case1 => intro a n; simp [specTally_nil]
  | case2 b l ih =>
    intro a n
    rw [specTally_cons, List.mem_cons, ih]
    constructor
    · rintro (he | ⟨hmem, hn⟩)
      · rw [Prod.mk.injEq] at he
        refine ⟨he.1 ▸ List.mem_cons_self _ _, ?_⟩
        rw [he.1, List.count_cons_self]
        omega
      · rw [List.mem_filter] at hmem
        have hab : a ≠ b := by simpa using hmem.2
        refine ⟨List.mem_cons_of_mem _ hmem.1, ?_⟩
        rw [hn, List.count_filter (by simpa using hab),
          List.count_cons, if_neg (by simpa using Ne.symm hab), Nat.add_zero]
    · rintro ⟨hmem, hn⟩
      by_cases hab : a = b
      · left
        rw [Prod.mk.injEq]
        refine ⟨hab, ?_⟩
        rw [hn, hab, List.count_cons_self]
        omega
      · right
        have hmem' : a ∈ l := by
          rcases List.mem_cons.mp hmem with h | h
          · exact absurd h hab
          · exact h
        refine ⟨List.mem_filter.mpr ⟨hmem', by simpa using hab⟩, ?_⟩
        rw [hn, List.count_filter (by simpa using hab),
          List.count_cons, if_neg (by simpa using Ne.symm hab), Nat.add_zero]

theorem specTally_sum [DecidableEq α] :
    ∀ l : List α, ((specTally l).map Prod.snd).sum = l.length := by
  intro l
  induction l using dedupFirst.induct with
  | case1 => rw [specTally_nil]; rfl
  | case2 b l ih =>
    rw [specTally_cons, List.map_cons, List.sum_cons, ih]
    have hsplit := List.length_eq_countP_add_countP (p := (· == b)) (l := l)
    have hcount : l.count b = l.countP (· == b) := List.count_eq_countP b l
    have hfilter : (l.filter (· ≠ b)).length = l.countP fun a => ¬(a == b) := by
      rw [← List.countP_eq_length_filter]
      exact List.countP_congr fun x _ => by simp
    rw [List.length_cons, hfilter]
    omega

/-! Lemmas for the stable descending sort used by `which_book`. -/

theorem insertDesc_perm (x : α × Nat) :
    ∀ l : List (α × Nat), (insertDesc x l).Perm (x :: l) := by
  intro l
  induction l with
  | nil => exact List.Perm.refl _
  | cons y ys ih =>
    rw [insertDesc]
    by_cases h : y.2 > x.2
    · rw [if_pos h]
      exact (ih.cons y).trans (List.Perm.swap x y ys)
    · rw [if_neg h]

theorem stableSortDesc_perm :
    ∀ l : List (α × Nat), (stableSortDesc l).Perm l := by
  intro l
  induction l with
  | nil => exact List.Perm.refl _
  | cons x xs ih =>
    rw [stableSortDesc]
    exact (insertDesc_perm x _).trans (ih.cons x)

theorem insertDesc_sorted_stable (f : α × Nat → Nat) (x : α × Nat) :
    ∀ l : List (α × Nat),
      l.Pairwise (fun a b => b.2 ≤ a.2) →
      l.Pairwise (fun a b => a.2 = b.2 → f a < f b) →
      (∀ y ∈ l, x.2 = y.2 → f x < f y) →
      (insertDesc x l).Pairwise (fun a b => b.2 ≤ a.2)
      ∧ (insertDesc x l).Pairwise (fun a b => a.2 = b.2 → f a < f b) := by
  intro l
  induction l with
  | nil =>
    intro _ _ _
    constructor <;> · rw [insertDesc]; exact List.pairwise_singleton _ _
  | cons y ys ih =>
    intro hs hq hx
    rw [insertDesc]
    by_cases h : y.2 > x.2
    · rw [if_pos h]
      have hs' := List.pairwise_cons.mp hs
      have hq' := List.pairwise_cons.mp hq
      have ihres := ih hs'.2 hq'.2 (fun z hz => hx z (List.mem_cons_of_mem _ hz))
      constructor
      · refine List.pairwise_cons.mpr ⟨?_, ihres.1⟩
        intro z hz
        rcases List.mem_cons.mp ((insertDesc_perm x ys).mem_iff.mp hz) with he | hzys
        · rw [he]
          omega
        · exact hs'.1 z hzys
      · refine List.pairwise_cons.mpr ⟨?_, ihres.2⟩
        intro z hz he
        rcases List.mem_cons.mp ((insertDesc_perm x ys).mem_iff.mp hz) with hze | hzys
        · rw [hze] at he
          omega
        · exact hq'.1 z hzys he
    · rw [if_neg h]
      constructor
      · refine List.pairwise_cons.mpr ⟨?_, hs⟩
        intro z hz
        rcases List.mem_cons.mp hz with he | hzys
        · rw [he]; omega
        · have := (List.pairwise_cons.mp hs).1 z hzys
          omega
      · exact List.pairwise_cons.mpr ⟨fun z hz he => hx z hz he, hq⟩

theorem stableSortDesc_sorted_stable (f : α × Nat → Nat) :
    ∀ l : List (α × Nat),
      l.Pairwise (fun a b => a.2 = b.2 → f a < f b) →
      (stableSortDesc l).Pairwise (fun a b => b.2 ≤ a.2)
      ∧ (stableSortDesc l).Pairwise (fun a b => a.2 = b.2 → f a < f b) := by
  intro l
  induction l with
  | nil =>
    intro _
    constructor <;> · rw [stableSortDesc]; exact List.Pairwise.nil
  | cons x xs ih =>
    intro hq
    rw [stableSortDesc]
    have hq' := List.pairwise_cons.mp hq
    have ihres := ih hq'.2
    exact insertDesc_sorted_stable f x _ ihres.1 ihres.2
      (fun y hy he => hq'.1 y ((stableSortDesc_perm xs).mem_iff.mp hy) he)

/-- The number of occurrences of `b` in a list (instance-free counting). -/
def occCount [DecidableEq α] (b : α) : List α → Nat
  | [] => 0
  | a :: l => (if a = b then 1 else 0) + occCount b l

/-- The position of the first occurrence of `b` in a list (the length when
absent). -/
def firstPos [DecidableEq α] (b : α) : List α → Nat
  | [] => 0
  | a :: l => if a = b then 0 else firstPos b l + 1

theorem occCount_eq_count [DecidableEq α] (b : α) :
    ∀ l : List α, occCount b l = l.count b := by
  intro l
  induction l with
  | nil => rfl
  | cons a t ih =>
    rw [occCount, ih, List.count_cons]
    by_cases ha : a = b
    · rw [if_pos ha, if_pos (by simpa using ha)]
      omega
    · rw [if_neg ha, if_neg (by simpa using ha)]
      omega

theorem nodup_pairwise_firstPos [DecidableEq α] :
    ∀ {D : List α}, D.Nodup → D.Pairwise (fun a b => firstPos a D < firstPos b D) := by
  intro D
  induction D with
  | nil => intro _; exact List.Pairwise.nil
  | cons a t ih =>
    intro hN
    have hN' := List.nodup_cons.mp hN
    refine List.pairwise_cons.mpr ⟨?_, ?_⟩
    · intro y hy
      have hya : a ≠ y := fun he => hN'.1 (he ▸ hy)
      rw [firstPos, firstPos, if_pos rfl, if_neg hya]
      exact Nat.succ_pos _
    · refine (ih hN'.2).imp_of_mem ?_
      intro u v hu hv huv
      have hau : a ≠ u := fun he => hN'.1 (he ▸ hu)
      have hav : a ≠ v := fun he => hN'.1 (he ▸ hv)
      rw [firstPos, firstPos, if_neg hau, if_neg hav]
      omega

theorem tally_pairwise_firstPos [DecidableEq α] (l : List α) :
    (tally l).Pairwise
      (fun x y => firstPos x.1 (dedupFirst l) < firstPos y.1 (dedupFirst l)) := by
  rw [tally_eq_specTally]
  have hp : ((specTally l).map Prod.fst).Pairwise
      (fun a b => firstPos a (dedupFirst l) < firstPos b (dedupFirst l)) := by
    rw [specTally_keys]
    exact nodup_pairwise_firstPos (dedupFirst_nodup l)
  exact (List.pairwise_map (f := Prod.fst)).mp hp

theorem tally_mem [DecidableEq α] (l : List α) (a : α) (n : Nat) :
    (a, n) ∈ tally l ↔ (a ∈ l ∧ n = occCount a l) := by
  rw [tally_eq_specTally, occCount_eq_count]
  exact specTally_mem l a n

theorem tally_sum [DecidableEq α] (l : List α) :
    ((tally l).map Prod.snd).sum = l.length := by
  rw [tally_eq_specTally]
  exact specTally_sum l

/-- The owner (document name) recorded for a flat-list position
(`chunk_to_book[idx]`). -/
def ownerOf (s : IndexState) (idx : Nat) : Str := s.chunk_to_book.getD idx []

/-- C4 (amended): on a non-blank topic and a non-empty corpus whose dense
search structure is present (which holds whenever at least one upload
succeeded and no rebuild has failed since; at a reachable non-empty-corpus
state without the structure the handler instead returns the no-books error,
as the counterexample shows),
`which_book` queries the searcher with `k = min(10, corpusSize)` neighbours
and returns, for the owner names of the returned chunk positions, exactly the
stable descending sort of their first-encounter tally: the result is sorted
by mention count descending; a pair `(b, cnt)` appears exactly when `b` owns
a returned chunk and `cnt` is the number of returned chunks owned by `b`; the
counts sum to `k`, so no returned chunk is filtered out by any zero-score
threshold; and entries with equal counts appear in first-encountered document
order (increasing position of the owner's first occurrence among the returned
chunks). -/
theorem which_book_correct (body : Option Str) (f : Nat → List Nat) (s : IndexState)
    (htopic : pyStrip (body.getD []) ≠ [])
    (hchunks : s.all_chunks ≠ []) (hidx : s.search_index ≠ none)
    (hk : (f (min 10 s.all_chunks.length)).length = min 10 s.all_chunks.length) :
    which_book body f s = WhichBookResult.ok (pyStrip (body.getD []))
        (stableSortDesc (tally ((f (min 10 s.all_chunks.length)).map (ownerOf s))))
    ∧ (stableSortDesc (tally ((f (min 10 s.all_chunks.length)).map (ownerOf s)))).Pairwise
        (fun x y => y.2 ≤ x.2)
    ∧ (∀ b cnt,
        (b, cnt) ∈ stableSortDesc (tally ((f (min 10 s.all_chunks.length)).map (ownerOf s)))
        ↔ (b ∈ (f (min 10 s.all_chunks.length)).map (ownerOf s)
            ∧ cnt = occCount b ((f (min 10 s.all_chunks.length)).map (ownerOf s))))
    ∧ ((stableSortDesc (tally ((f (min 10 s.all_chunks.length)).map (ownerOf s)))).map
        Prod.snd).sum = min 10 s.all_chunks.length
    ∧ (stableSortDesc (tally ((f (min 10 s.all_chunks.length)).map (ownerOf s)))).Pairwise
        (fun x y => x.2 = y.2 →
          firstPos x.1 (dedupFirst ((f (min 10 s.all_chunks.length)).map (ownerOf s)))
            < firstPos y.1 (dedupFirst ((f (min 10 s.all_chunks.length)).map (ownerOf s)))) := by
  have hpre : (tally ((f (min 10 s.all_chunks.length)).map (ownerOf s))).Pairwise
      (fun x y => x.2 = y.2 →
        firstPos x.1 (dedupFirst ((f (min 10 s.all_chunks.length)).map (ownerOf s)))
          < firstPos y.1 (dedupFirst ((f (min 10 s.all_chunks.length)).map (ownerOf s)))) := by
    refine (tally_pairwise_firstPos ((f (min 10 s.all_chunks.length)).map (ownerOf s))).imp ?_
    intro a b h _
    exact h
  have hsorted := stableSortDesc_sorted_stable
    (fun x => firstPos x.1 (dedupFirst ((f (min 10 s.all_chunks.length)).map (ownerOf s))))
    (tally ((f (min 10 s.all_chunks.length)).map (ownerOf s))) hpre
  refine ⟨?_, hsorted.1, ?_, ?_, hsorted.2⟩
  · unfold which_book
    rw [if_neg htopic, if_neg (not_or.mpr ⟨hchunks, hidx⟩)]
    rfl
  · intro b cnt
    rw [(stableSortDesc_perm _).mem_iff]
    exact tally_mem _ b cnt
  · rw [((stableSortDesc_perm
        (tally ((f (min 10 s.all_chunks.length)).map (ownerOf s)))).map Prod.snd).sum_eq]
    rw [tally_sum, List.length_map, hk]

/-- Witness for C4 on a two-chunk, two-book state with the identity searcher. -/
theorem which_book_correct_witness :
    which_book (some "t".data) (fun k => List.range k)
        { books_db := [], all_chunks := ["aa".data, "bb".data],
          chunk_to_book := ["b1".data, "b2".data],
          search_index := some ["aa".data, "bb".data] }
      = WhichBookResult.ok (pyStrip ((some "t".data).getD []))
          (stableSortDesc (tally ((List.range (min 10
              ({ books_db := [], all_chunks := ["aa".data, "bb".data],
                 chunk_to_book := ["b1".data, "b2".data],
                 search_index := some ["aa".data, "bb".data] } :
                  IndexState).all_chunks.length)).map (ownerOf
              { books_db := [], all_chunks := ["aa".data, "bb".data],
                chunk_to_book := ["b1".data, "b2".data],
                search_index := some ["aa".data, "bb".data] }))))
    ∧ (stableSortDesc (tally ((List.range (min 10
          ({ books_db := [], all_chunks := ["aa".data, "bb".data],
             chunk_to_book := ["b1".data, "b2".data],
             search_index := some ["aa".data, "bb".data] } :
              IndexState).all_chunks.length)).map (ownerOf
          { books_db := [], all_chunks := ["aa".data, "bb".data],
            chunk_to_book := ["b1".data, "b2".data],
            search_index := some ["aa".data, "bb".data] })))).Pairwise
        (fun x y => y.2 ≤ x.2)
    ∧ (∀ b cnt,
        (b, cnt) ∈ stableSortDesc (tally ((List.range (min 10
            ({ books_db := [], all_chunks := ["aa".data, "bb".data],
               chunk_to_book := ["b1".data, "b2".data],
               search_index := some ["aa".data, "bb".data] } :
                IndexState).all_chunks.length)).map (ownerOf
            { books_db := [], all_chunks := ["aa".data, "bb".data],
              chunk_to_book := ["b1".data, "b2".data],
              search_index := some ["aa".data, "bb".data] })))
        ↔ (b ∈ (List.range (min 10
              ({ books_db := [], all_chunks := ["aa".data, "bb".data],
                 chunk_to_book := ["b1".data, "b2".data],
                 search_index := some ["aa".data, "bb".data] } :
                  IndexState).all_chunks.length)).map (ownerOf
              { books_db := [], all_chunks := ["aa".data, "bb".data],
                chunk_to_book := ["b1".data, "b2".data],
                search_index := some ["aa".data, "bb".data] })
            ∧ cnt = occCount b ((List.range (min 10
              ({ books_db := [], all_chunks := ["aa".data, "bb".data],
                 chunk_to_book := ["b1".data, "b2".data],
                 search_index := some ["aa".data, "bb".data] } :
                  IndexState).all_chunks.length)).map (ownerOf
              { books_db := [], all_chunks := ["aa".data, "bb".data],
                chunk_to_book := ["b1".data, "b2".data],
                search_index := some ["aa".data, "bb".data] }))))
    ∧ ((stableSortDesc (tally ((List.range (min 10
          ({ books_db := [], all_chunks := ["aa".data, "bb".data],
             chunk_to_book := ["b1".data, "b2".data],
             search_index := some ["aa".data, "bb".data] } :
              IndexState).all_chunks.length)).map (ownerOf
          { books_db := [], all_chunks := ["aa".data, "bb".data],
            chunk_to_book := ["b1".data, "b2".data],
            search_index := some ["aa".data, "bb".data] })))).map
        Prod.snd).sum = min 10
          ({ books_db := [], all_chunks := ["aa".data, "bb".data],
             chunk_to_book := ["b1".data, "b2".data],
             search_index := some ["aa".data, "bb".data] } :
              IndexState).all_chunks.length
    ∧ (stableSortDesc (tally ((List.range (min 10
          ({ books_db := [], all_chunks := ["aa".data, "bb".data],
             chunk_to_book := ["b1".data, "b2".data],
             search_index := some ["aa".data, "bb".data] } :
              IndexState).all_chunks.length)).map (ownerOf
          { books_db := [], all_chunks := ["aa".data, "bb".data],
            chunk_to_book := ["b1".data, "b2".data],
            search_index := some ["aa".data, "bb".data] })))).Pairwise
        (fun x y => x.2 = y.2 →
          firstPos x.1 (dedupFirst ((List.range (min 10
              ({ books_db := [], all_chunks := ["aa".data, "bb".data],
                 chunk_to_book := ["b1".data, "b2".data],
                 search_index := some ["aa".data, "bb".data] } :
                  IndexState).all_chunks.length)).map (ownerOf
              { books_db := [], all_chunks := ["aa".data, "bb".data],
                chunk_to_book := ["b1".data, "b2".data],
                search_index := some ["aa".data, "bb".data] })))
            < firstPos y.1 (dedupFirst ((List.range (min 10
              ({ books_db := [], all_chunks := ["aa".data, "bb".data],
                 chunk_to_book := ["b1".data, "b2".data],
                 search_index := some ["aa".data, "bb".data] } :
                  IndexState).all_chunks.length)).map (ownerOf
              { books_db := [], all_chunks := ["aa".data, "bb".data],
                chunk_to_book := ["b1".data, "b2".data],
                search_index := some ["aa".data, "bb".data] })))) :=
  which_book_correct (some "t".data) (fun k => List.range k)
    { books_db := [], all_chunks := ["aa".data, "bb".data],
      chunk_to_book := ["b1".data, "b2".data],
      search_index := some ["aa".data, "bb".data] }
    (by decide) (by decide) (by decide) (by decide)

theorem getD_map_of_lt {α β : Type _} (g : α → β) (d : β) (d2 : α) :
    ∀ (l : List α) (j : Nat), j < l.length → (l.map g).getD j d = g (l.getD j d2) := by
  intro l
  induction l with
  | nil => intro j hj; simp at hj
  | cons a t ih =>
    intro j hj
    rcases j with _ | j
    · simp
    · simp only [List.map_cons, List.getD_cons_succ]
      exact ih j (by simpa using hj)

/-- C5 (amended): on a non-blank question and a non-empty corpus whose dense
search structure is present (at a reachable non-empty-corpus state without
the structure the handler instead returns the no-books error, as the
counterexample shows), `ask_question` queries the searcher with `k = min(5, corpusSize)`
neighbours and returns one passage per returned position, pairing the owning
book name with the chunk text unmodified when it has at most 300 characters
and truncated to its first 300 characters plus the ellipsis marker otherwise;
the answer is built deterministically as the templated lead-in plus the first
500 characters of the space-joined ranked chunk texts capped at 1000 words,
followed by the ellipsis marker. -/
theorem ask_question_correct (body : Option Str) (f : Nat → List Nat) (s : IndexState)
    (hq : pyStrip (body.getD []) ≠ [])
    (hchunks : s.all_chunks ≠ []) (hidx : s.search_index ≠ none) :
    ∃ answer passages books,
      ask_question body f s = AskResult.ok answer passages books
      ∧ passages.length = (f (min 5 s.all_chunks.length)).length
      ∧ (∀ j, j < (f (min 5 s.all_chunks.length)).length →
          (passages.getD j ([], [])).2
            = ownerOf s ((f (min 5 s.all_chunks.length)).getD j 0)
          ∧ (((s.all_chunks.getD ((f (min 5 s.all_chunks.length)).getD j 0) []).length ≤ 300
              ∧ (passages.getD j ([], [])).1
                  = s.all_chunks.getD ((f (min 5 s.all_chunks.length)).getD j 0) [])
            ∨ (300 < (s.all_chunks.getD ((f (min 5 s.all_chunks.length)).getD j 0) []).length
              ∧ (passages.getD j ([], [])).1
                  = (s.all_chunks.getD ((f (min 5 s.all_chunks.length)).getD j 0) []).take 300
                      ++ ellipsis)))
      ∧ books = dedupFirst ((f (min 5 s.all_chunks.length)).map (ownerOf s))
      ∧ ∃ context,
          answer = leadIn books.length ++ suggestsTxt ++ context.take 500 ++ ellipsis
          ∧ pyWords context
              = (pyWords (joinSpace ((f (min 5 s.all_chunks.length)).map
                  fun idx => s.all_chunks.getD idx []))).take 1000
          ∧ (pyWords context).length ≤ 1000
          ∧ (context.take 500).length ≤ 500 := by
  simp only [ask_question]
  rw [if_neg hq, if_neg (not_or.mpr ⟨hchunks, hidx⟩)]
  refine ⟨_, _, _, rfl, by rw [List.length_map], ?_, rfl, ?_⟩
  · intro j hj
    rw [getD_map_of_lt _ ([], []) 0 _ j hj]
    refine ⟨rfl, ?_⟩
    by_cases h300 :
        300 < (s.all_chunks.getD ((f (min 5 s.all_chunks.length)).getD j 0) []).length
    · right
      exact ⟨h300, by rw [if_pos h300]⟩
    · left
      exact ⟨by omega, by rw [if_neg h300]⟩
  · refine ⟨_, rfl, ?_, ?_, ?_⟩
    · by_cases hcap : 1000 < (pyWords (joinSpace ((f (min 5 s.all_chunks.length)).map
          fun idx => s.all_chunks.getD idx []))).length
      · rw [if_pos hcap]
        refine pyWords_joinSpace _ fun w hw => ?_
        exact mem_pyWords_goodWord (List.take_subset _ _ hw)
      · rw [if_neg hcap]
        exact (List.take_of_length_le (by omega)).symm
    · by_cases hcap : 1000 < (pyWords (joinSpace ((f (min 5 s.all_chunks.length)).map
          fun idx => s.all_chunks.getD idx []))).length
      · rw [if_pos hcap]
        rw [pyWords_joinSpace _ fun w hw => mem_pyWords_goodWord (List.take_subset _ _ hw)]
        rw [List.length_take]
        exact Nat.min_le_left _ _
      · rw [if_neg hcap]
        omega
    · rw [List.length_take]
      exact Nat.min_le_left _ _

/-- Witness for C5 on a one-chunk state with a searcher returning position 0. -/
theorem ask_question_correct_witness :
    ∃ answer passages books,
      ask_question (some "q".data) (fun _ => [0])
          { books_db := [], all_chunks := ["alpha beta".data], chunk_to_book := ["a".data],
            search_index := some ["alpha beta".data] }
        = AskResult.ok answer passages books
      ∧ passages.length = ([0] : List Nat).length
      ∧ (∀ j, j < ([0] : List Nat).length →
          (passages.getD j ([], [])).2
            = ownerOf
                { books_db := [], all_chunks := ["alpha beta".data],
                  chunk_to_book := ["a".data], search_index := some ["alpha beta".data] }
                (([0] : List Nat).getD j 0)
          ∧ (((["alpha beta".data].getD (([0] : List Nat).getD j 0) []).length ≤ 300
              ∧ (passages.getD j ([], [])).1
                  = ["alpha beta".data].getD (([0] : List Nat).getD j 0) [])
            ∨ (300 < (["alpha beta".data].getD (([0] : List Nat).getD j 0) []).length
              ∧ (passages.getD j ([], [])).1
                  = (["alpha beta".data].getD (([0] : List Nat).getD j 0) []).take 300
                      ++ ellipsis)))
      ∧ books = dedupFirst (([0] : List Nat).map (ownerOf
          { books_db := [], all_chunks := ["alpha beta".data], chunk_to_book := ["a".data],
            search_index := some ["alpha beta".data] }))
      ∧ ∃ context,
          answer = leadIn books.length ++ suggestsTxt ++ context.take 500 ++ ellipsis
          ∧ pyWords context
              = (pyWords (joinSpace (([0] : List Nat).map
                  fun idx => ["alpha beta".data].getD idx []))).take 1000
          ∧ (pyWords context).length ≤ 1000
          ∧ (context.take 500).length ≤ 500 :=
  ask_question_correct (some "q".data) (fun _ => [0])
    { books_db := [], all_chunks := ["alpha beta".data], chunk_to_book := ["a".data],
      search_index := some ["alpha beta".data] }
    (by decide) (by decide) (by decide)

/-- Counterexample to C4 as stated: at a reachable state whose corpus is
non-empty but whose search-index rebuild failed, a non-blank topic does not
get a ranked per-document result — `which_book` returns the no-books 400
error instead. -/
theorem which_book_no_ranking_counterexample :
    ((upload_book true "b".data (some "w1 w2".data) false emptyState).2).all_chunks.length = 1
    ∧ which_book (some "t".data) (fun _ => [])
        ((upload_book true "b".data (some "w1 w2".data) false emptyState).2)
      = WhichBookResult.noBooks := by
  have hw : pyWords "w1 w2".data = ["w1".data, "w2".data] := by decide
  have hcl : split_text_into_chunks "w1 w2".data = ["w1 w2".data] := by
    unfold split_text_into_chunks
    rw [hw, chunkLoop_cons]
    simp +decide [chunkLoop_nil]
  constructor
  · simp +decide [upload_book, hcl, create_search_index, emptyState, dictSet]
  · simp +decide [upload_book, hcl, create_search_index, emptyState, dictSet, which_book]

/-- Counterexample to C5 as stated: at a reachable state whose corpus is
non-empty but whose search-index rebuild failed, a non-blank question does
not get ranked passages — `ask_question` returns the no-books 400 error
instead. -/
theorem ask_no_ranking_counterexample :
    ((upload_book true "c".data (some "zz".data) false emptyState).2).all_chunks.length = 1
    ∧ ask_question (some "why".data) (fun _ => [])
        ((upload_book true "c".data (some "zz".data) false emptyState).2)
      = AskResult.noBooks := by
  have hz : pyWords "zz".data = ["zz".data] := by decide
  have hcl : split_text_into_chunks "zz".data = ["zz".data] := by
    unfold split_text_into_chunks
    rw [hz, chunkLoop_cons]
    simp +decide [chunkLoop_nil]
  constructor
  · simp +decide [upload_book, hcl, create_search_index, emptyState, dictSet]
  · simp +decide [upload_book, hcl, create_search_index, emptyState, dictSet, ask_question]
